import Mathlib

/-!
Verification of the poll-normalisation pipeline in `extract_cudry.py`.

The Python source is embedded shallowly:
  * strings are `List Char` / `String` (ASCII fragment of Python's Unicode
    semantics: `\d`, `str.strip`, `int`, `float` are modelled on ASCII input,
    which covers every value exercised here);
  * `float` values are modelled as exact rationals (`PyF`), with the IEEE
    overflow/underflow thresholds applied at parse time so that the
    "finite and strictly positive" inclusion test of the aggregator is
    represented faithfully for parsed cell values;
  * CSV rows (`csv.DictReader` dictionaries) are association lists from
    column name to optional cell value (`none` models both an absent key
    and a `None` value, which `float(...)`/`str(...)` treat alike here);
  * the regular expressions of the source are hand-compiled to scanning
    functions that reproduce the leftmost-match and greedy/lazy
    backtracking behaviour of Python `re` on the relevant patterns.
-/

set_option maxRecDepth 40000
set_option exponentiation.threshold 2000

/-! ### Character and string utilities -/

/-- Python `str.strip()` whitespace (ASCII part of `str.isspace`). -/
def isPySpace (c : Char) : Bool :=
  c = ' ' || c = '\t' || c = '\n' || c = '\x0b' || c = '\x0c' || c = '\r'

/-- Python `str.strip()`: drop leading and trailing whitespace. -/
def pyStrip (cs : List Char) : List Char :=
  ((cs.dropWhile isPySpace).reverse.dropWhile isPySpace).reverse

/-- ASCII lower-casing, as used for case-insensitive regex matching. -/
def lowerA (c : Char) : Char :=
  if 'A' ≤ c ∧ c ≤ 'Z' then Char.ofNat (c.toNat + 32) else c

/-- Numeric value of a list of ASCII digits (most significant first). -/
def digitsToNat (l : List Char) : ℕ :=
  l.foldl (fun a c => a * 10 + (c.toNat - 48)) 0

def natToCharsAux : ℕ → ℕ → List Char
  | 0, _ => []
  | fuel + 1, n =>
    if n < 10 then [Char.ofNat (48 + n)]
    else natToCharsAux fuel (n / 10) ++ [Char.ofNat (48 + n % 10)]

/-- Decimal digits of a natural number. -/
def natToChars (n : ℕ) : List Char := natToCharsAux (n + 1) n

/-- Left-pad a digit string with zeros to width `w`. -/
def padZeros (w : ℕ) (l : List Char) : List Char :=
  List.replicate (w - l.length) '0' ++ l

/-- Split a character list on a separator character (Python `str.split(sep)`). -/
def splitOnChar (sep : Char) : List Char → List (List Char)
  | [] => [[]]
  | c :: rest =>
    let r := splitOnChar sep rest
    if c = sep then [] :: r
    else match r with
      | [] => [[c]]
      | h :: t => (c :: h) :: t

/-- Whether `p` occurs as a contiguous subsequence of the second list. -/
def containsSeq (p : List Char) : List Char → Bool
  | [] => p.isEmpty
  | c :: rest => p.isPrefixOf (c :: rest) || containsSeq p rest

/-! ### Python `int(...)` on a string (ASCII) -/

/-- Python `int(s)`: optional whitespace, optional sign, nonempty digits. -/
def pyInt? (cs0 : List Char) : Option ℤ :=
  let cs := pyStrip cs0
  let sgn : Bool × List Char :=
    match cs with
    | '+' :: r => (false, r)
    | '-' :: r => (true, r)
    | r => (false, r)
  let ds := sgn.2
  if ds.isEmpty || !(ds.all Char.isDigit) then none
  else some (if sgn.1 then -(digitsToNat ds : ℤ) else (digitsToNat ds : ℤ))

/-! ### Exact fractions

`Rat` arithmetic does not evaluate by `decide` in this toolchain, so finite
float values and the aggregator state are carried as raw integer fractions
(`PyQ`), with sign/order/rounding read off by cross-multiplication. Every
fraction built below has a positive denominator, so those readings agree
with the real value of the fraction. -/

@[ext]
structure PyQ : Type where
  num : ℤ
  den : ℤ
deriving DecidableEq

/-- The real value `num / den` compared against zero (correct whenever
`den ≠ 0`, which holds for every fraction the pipeline builds). -/
def PyQ.pos (a : PyQ) : Prop := 0 < a.num * a.den

instance (a : PyQ) : Decidable a.pos := by unfold PyQ.pos; infer_instance

def PyQ.add (a b : PyQ) : PyQ := ⟨a.num * b.den + b.num * a.den, a.den * b.den⟩

def PyQ.mul (a b : PyQ) : PyQ := ⟨a.num * b.num, a.den * b.den⟩

def PyQ.div (a b : PyQ) : PyQ := ⟨a.num * b.den, a.den * b.num⟩

def PyQ.zero : PyQ := ⟨0, 1⟩

/-- `10 ^ n` (via `Nat.pow`, which evaluates under `decide`, unlike the
`Monoid.npow` route). -/
def pow10 (n : ℕ) : ℤ := ((Nat.pow 10 n : ℕ) : ℤ)

/-- `2 ^ n`. -/
def pow2Z (n : ℕ) : ℤ := ((Nat.pow 2 n : ℕ) : ℤ)

/-! ### Python `float(...)` on a string (ASCII), as an exact value -/

/-- Result of Python `float(...)`: a finite value (exact fraction), an
infinity, or a NaN. Only finiteness, sign and zero-ness are consumed by the
aggregator, so the fraction carries the exact decimal value. -/
inductive PyF : Type
  | fin (q : PyQ)
  | inf
  | nan
deriving DecidableEq

/-- Build `mant * 10 ^ e` as a fraction (denominator a positive power of ten). -/
def mkPyQ (mant : ℤ) (e : ℤ) : PyQ :=
  if 0 ≤ e then ⟨mant * pow10 e.toNat, 1⟩ else ⟨mant, pow10 (-e).toNat⟩

/-- Apply double-precision overflow/underflow at the parse boundary:
values at or beyond the rounding threshold to `inf` become infinite, values
rounding to zero become `0.0` (so they fail the `w > 0` test, as in CPython).
The comparisons are `|num| ≥ T * |den|` and `|num| * 2 ^ 1075 ≤ |den|`,
i.e. `|q| ≥ T` and `|q| ≤ 2 ^ (-1075)` for the positive denominators built
by `mkPyQ`. -/
def classifyQ (q : PyQ) : PyF :=
  if q.num = 0 then PyF.fin PyQ.zero
  else if (pow2Z 1024 - pow2Z 970) * (q.den.natAbs : ℤ) ≤ (q.num.natAbs : ℤ) then PyF.inf
  else if (q.num.natAbs : ℤ) * pow2Z 1075 ≤ (q.den.natAbs : ℤ) then PyF.fin PyQ.zero
  else PyF.fin q

def parseExpPart (cs : List Char) : Bool × ℤ :=
  let sgn : Bool × List Char :=
    match cs with
    | '+' :: r => (false, r)
    | '-' :: r => (true, r)
    | r => (false, r)
  let ds := sgn.2.takeWhile Char.isDigit
  let rest := sgn.2.dropWhile Char.isDigit
  if ds.isEmpty || !rest.isEmpty then (false, 0)
  else (true, if sgn.1 then -(digitsToNat ds : ℤ) else (digitsToNat ds : ℤ))

/-- Python `float(s)` (ASCII decimal grammar: optional sign, digits with
optional point, optional exponent, or `inf`/`infinity`/`nan`). -/
def pyFloat? (cs0 : List Char) : Option PyF :=
  let cs := pyStrip cs0
  let sgn : Bool × List Char :=
    match cs with
    | '+' :: r => (false, r)
    | '-' :: r => (true, r)
    | r => (false, r)
  let body := sgn.2
  let low := body.map lowerA
  if low = "inf".data || low = "infinity".data then some PyF.inf
  else if low = "nan".data then some PyF.nan
  else
    let ip := body.takeWhile Char.isDigit
    let r1 := body.dropWhile Char.isDigit
    let fpr : List Char × List Char :=
      match r1 with
      | '.' :: rr => (rr.takeWhile Char.isDigit, rr.dropWhile Char.isDigit)
      | _ => ([], r1)
    let fp := fpr.1
    let r2 := fpr.2
    if ip.isEmpty && fp.isEmpty then none
    else
      let mant0 : ℤ := (digitsToNat (ip ++ fp) : ℤ)
      let mant : ℤ := if sgn.1 then -mant0 else mant0
      let ex : Bool × ℤ :=
        match r2 with
        | 'e' :: rr => parseExpPart rr
        | 'E' :: rr => parseExpPart rr
        | [] => (true, 0)
        | _ => (false, 0)
      if ex.1 then some (classifyQ (mkPyQ mant (ex.2 - fp.length))) else none

/-! ### Calendar (Python `datetime.date`) -/

def isLeap (y : ℕ) : Bool := y % 4 = 0 && (y % 100 ≠ 0 || y % 400 = 0)

def daysInMonth (y m : ℕ) : ℕ :=
  if m = 2 then (if isLeap y then 29 else 28)
  else if m = 4 ∨ m = 6 ∨ m = 9 ∨ m = 11 then 30
  else 31

/-- Civil date `n` days after 1960-01-01 (the source's `ORIGIN`), via the
standard era-based conversion. `n + 715815` is the day count from
0000-03-01 in the proleptic Gregorian calendar. -/
def civilFromDays1960 (n : ℕ) : ℕ × ℕ × ℕ :=
  let z := n + 715815
  let era := z / 146097
  let doe := z % 146097
  let yoe := (doe - doe / 1460 + doe / 36524 - doe / 146096) / 365
  let doy := doe - (365 * yoe + yoe / 4 - yoe / 100)
  let mp := (5 * doy + 2) / 153
  let d := doy - (153 * mp + 2) / 5 + 1
  let m := if mp < 10 then mp + 3 else mp - 9
  let y := yoe + era * 400 + (if m ≤ 2 then 1 else 0)
  (y, m, d)

/-- `date.strftime("%Y-%m-%d")`: month and day zero-padded to two digits
(`%Y` is unpadded on the reference platform; every year produced by the
source is at least four digits when it matters to the claims). -/
def fmtDate (y m d : ℕ) : List Char :=
  natToChars y ++ ['-'] ++ padZeros 2 (natToChars m) ++ ['-'] ++ padZeros 2 (natToChars d)

/-- `date(y, m, d)` then `strftime`: `none` models the `ValueError` of an
invalid calendar value (caught by the source and treated as fall-through). -/
def mkValidDate (y m d : ℕ) : Option (List Char) :=
  if 1 ≤ y ∧ y ≤ 9999 ∧ 1 ≤ m ∧ m ≤ 12 ∧ 1 ≤ d ∧ d ≤ daysInMonth y m
  then some (fmtDate y m d) else none

/-! ### Hand-compiled regex machinery for `extract_date` -/

def dval (c : Char) : ℕ := c.toNat - 48

/-- `(\d{1,2})`: the greedy alternatives (two digits first, then one),
each with the remaining input. -/
def matchD12 : List Char → List (ℕ × List Char)
  | a :: b :: rest =>
    (if a.isDigit && b.isDigit then [(dval a * 10 + dval b, rest)] else [])
      ++ (if a.isDigit then [(dval a, b :: rest)] else [])
  | [a] => if a.isDigit then [(dval a, [])] else []
  | [] => []

/-- `(\d{4})`: exactly four digits (further digits may follow). -/
def matchD4 : List Char → Option (ℕ × List Char)
  | a :: b :: c :: d :: rest =>
    if a.isDigit && b.isDigit && c.isDigit && d.isDigit then
      some (dval a * 1000 + dval b * 100 + dval c * 10 + dval d, rest)
    else none
  | _ => none

def matchLit (c : Char) : List Char → Option (List Char)
  | a :: r => if a = c then some r else none
  | [] => none

/-- `\s*` (greedy; the following literal is never a whitespace char in the
patterns below, so no backtracking into the run is observable). -/
def skipWs (cs : List Char) : List Char := cs.dropWhile isPySpace

/-- Match `(\d{1,2})/(\d{1,2})\s*-\s*(\d{1,2})/(\d{1,2}),\s*(\d{4})` at the
head of the input, returning groups 3, 4, 5 (second month, second day, year). -/
def matchRangeAt (cs : List Char) : Option (ℕ × ℕ × ℕ) :=
  (matchD12 cs).findSome? (fun p1 =>
    (matchLit '/' p1.2).bind (fun r2 =>
      (matchD12 r2).findSome? (fun p2 =>
        (matchLit '-' (skipWs p2.2)).bind (fun r5 =>
          (matchD12 (skipWs r5)).findSome? (fun p3 =>
            (matchLit '/' p3.2).bind (fun r8 =>
              (matchD12 r8).findSome? (fun p4 =>
                (matchLit ',' p4.2).bind (fun r10 =>
                  (matchD4 (skipWs r10)).map (fun p5 => (p3.1, p4.1, p5.1))))))))))

/-- `re.search` of the range pattern: leftmost matching start position. -/
def searchRangeIn : List Char → Option (ℕ × ℕ × ℕ)
  | [] => none
  | c :: rest =>
    match matchRangeAt (c :: rest) with
    | some t => some t
    | none => searchRangeIn rest

/-- Match `(\d{1,2})/(\d{1,2})/(\d{4})` at the head, returning (month, day, year). -/
def matchMDYAt (cs : List Char) : Option (ℕ × ℕ × ℕ) :=
  (matchD12 cs).findSome? (fun p1 =>
    (matchLit '/' p1.2).bind (fun r2 =>
      (matchD12 r2).findSome? (fun p2 =>
        (matchLit '/' p2.2).bind (fun r4 =>
          (matchD4 r4).map (fun p3 => (p1.1, p2.1, p3.1))))))

def searchMDYIn : List Char → Option (ℕ × ℕ × ℕ)
  | [] => none
  | c :: rest =>
    match matchMDYAt (c :: rest) with
    | some t => some t
    | none => searchMDYIn rest

/-! ### `extract_date` -/

/-- Body of `extract_date` on the character list of a non-`None` value. -/
def extractDateChars (cs : List Char) : List Char :=
  let b1 : Option (List Char) :=
    if cs.contains '@' then
      let tl := (cs.reverse.takeWhile (fun c => c ≠ '@')).reverse
      let t := pyStrip tl
      let ds := (t.reverse.takeWhile Char.isDigit).reverse
      if ds.isEmpty then none
      else
        let n := digitsToNat ds
        let c := civilFromDays1960 n
        if c.1 ≤ 9999 then some (fmtDate c.1 c.2.1 c.2.2) else none
    else none
  let b2 : Option (List Char) :=
    match b1 with
    | some o => some o
    | none => (searchRangeIn cs).bind (fun t => mkValidDate t.2.2 t.1 t.2.1)
  let b3 : Option (List Char) :=
    match b2 with
    | some o => some o
    | none => (searchMDYIn cs).bind (fun t => mkValidDate t.2.2 t.1 t.2.1)
  b3.getD cs

/-- `extract_date` from the source: `None` passes through; otherwise the
`@`-id branch, then the range branch, then the single-date branch, then the
original text. -/
def extract_date (value : Option String) : Option String :=
  match value with
  | none => none
  | some s => some (String.mk (extractDateChars s.data))

/-! ### `extract_pollster` -/

/-- Remainder after the first `'>'`, if any (`[^>]*>` after an open tag). -/
def dropThroughGt : List Char → Option (List Char)
  | [] => none
  | c :: rest => if c = '>' then some rest else dropThroughGt rest

/-- Match `<a[^>]*>` (case-insensitive) at the head of the input. -/
def matchOpenA : List Char → Option (List Char)
  | '<' :: c :: rest => if c = 'a' ∨ c = 'A' then dropThroughGt rest else none
  | _ => none

/-- Inner text up to the first `</a>` (case-insensitive), with the lazy
`(.*?)` semantics of the source pattern; `none` if no close tag follows. -/
def findCloseA : List Char → Option (List Char)
  | '<' :: '/' :: a :: '>' :: rest =>
    if a = 'a' ∨ a = 'A' then some []
    else (findCloseA ('/' :: a :: '>' :: rest)).map (fun inner => '<' :: inner)
  | c :: rest => (findCloseA rest).map (fun inner => c :: inner)
  | [] => none

/-- `re.search(r"<a[^>]*>(.*?)</a>", s, IGNORECASE | DOTALL)`. -/
def searchAnchorIn : List Char → Option (List Char)
  | [] => none
  | c :: rest =>
    match matchOpenA (c :: rest) with
    | some after =>
      match findCloseA after with
      | some inner => some inner
      | none => searchAnchorIn rest
    | none => searchAnchorIn rest

/-- Split at the first `'>'`: the characters before it and the rest after. -/
def splitGt : List Char → Option (List Char × List Char)
  | [] => none
  | c :: rest =>
    if c = '>' then some ([], rest)
    else (splitGt rest).map (fun p => (c :: p.1, p.2))

/-- `re.sub(r"<[^>]+>", "", s)`: drop every span from a `'<'` through the
first following `'>'` with at least one character in between. -/
def stripTagsAux : ℕ → List Char → List Char
  | 0, cs => cs
  | _ + 1, [] => []
  | fuel + 1, c :: rest =>
    if c = '<' then
      match splitGt rest with
      | some p => if p.1.isEmpty then c :: stripTagsAux fuel rest else stripTagsAux fuel p.2
      | none => c :: stripTagsAux fuel rest
    else c :: stripTagsAux fuel rest

def stripTags (cs : List Char) : List Char := stripTagsAux cs.length cs

/-- Body of `extract_pollster` on the character list of a non-`None` value. -/
def extractPollsterChars (cs : List Char) : List Char :=
  match searchAnchorIn cs with
  | some inner => pyStrip inner
  | none =>
    if cs.contains '^' then pyStrip (cs.takeWhile (fun c => c ≠ '^'))
    else pyStrip (stripTags cs)

/-- `extract_pollster` from the source: `None` becomes `""`; otherwise the
first anchor's inner text, else the text before the first caret, else the
tag-stripped text, in each case trimmed. -/
def extract_pollster (value : Option String) : String :=
  match value with
  | none => ""
  | some s => String.mk (extractPollsterChars s.data)

/-! ### `extract_sponsor` -/

/-- Case-insensitive literal word match (pattern given lower-case). -/
def matchCIWord : List Char → List Char → Option (List Char)
  | [], cs => some cs
  | p :: ps, c :: cs => if lowerA c = p then matchCIWord ps cs else none
  | _ :: _, [] => none

/-- Match `\^\s*Sponsor:\s*([^\^]+)\^` at the head of the input, returning
group 1. When everything after the colon up to the closing caret is
whitespace, the greedy `\s*` backtracks one character so that `[^\^]+` can
match, exactly as Python `re` does; the group is then that single
whitespace character. -/
def matchSponsorAt : List Char → Option (List Char)
  | '^' :: r0 =>
    let r1 := r0.dropWhile isPySpace
    match matchCIWord "sponsor".data r1 with
    | some r2 =>
      match r2 with
      | ':' :: r3 =>
        let wsRun := r3.takeWhile isPySpace
        let afterWs := r3.dropWhile isPySpace
        let content := afterWs.takeWhile (fun c => c ≠ '^')
        let rest := afterWs.dropWhile (fun c => c ≠ '^')
        match rest with
        | '^' :: _ =>
          if content.isEmpty then
            if wsRun.isEmpty then none
            else some (wsRun.drop (wsRun.length - 1))
          else some content
        | _ => none
      | _ => none
    | none => none
  | _ => none

def searchSponsorIn : List Char → Option (List Char)
  | [] => none
  | c :: rest =>
    match matchSponsorAt (c :: rest) with
    | some g => some g
    | none => searchSponsorIn rest

/-- `extract_sponsor` from the source: the trimmed content of the first
`^Sponsor: ...^` segment, else `""`; `None` becomes `""`. -/
def extract_sponsor (value : Option String) : String :=
  match value with
  | none => ""
  | some s =>
    match searchSponsorIn s.data with
    | some g => String.mk (pyStrip g)
    | none => ""

/-! ### `compute_fieldnames` -/

/-- Python `list.remove(a)` (first occurrence; caller guards presence). -/
def removeFirstStr (a : String) : List String → List String
  | [] => []
  | b :: t => if b = a then t else b :: removeFirstStr a t

/-- Python `list.index(a)` for a present element. -/
def idxOfStr (a : String) : List String → ℕ
  | [] => 0
  | b :: t => if b = a then 0 else idxOfStr a t + 1

/-- Python `list.insert(i, x)` (clamps to the end, like the original). -/
def insertAt (x : String) : ℕ → List String → List String
  | 0, l => x :: l
  | _ + 1, [] => [x]
  | n + 1, b :: t => b :: insertAt x n t

/-- The removal loop of `compute_fieldnames`:
`for col in ("Disapprove", "Net"): if col in fields: fields.remove(col)`. -/
def cfStage1 (orig : List String) : List String :=
  let f1 := if "Disapprove" ∈ orig then removeFirstStr "Disapprove" orig else orig
  if "Net" ∈ f1 then removeFirstStr "Net" f1 else f1

/-- The `Sponsor` insertion of `compute_fieldnames`. -/
def cfStage2 (f2 : List String) : List String :=
  if "Pollster" ∈ f2 ∧ "Sponsor" ∉ f2 then insertAt "Sponsor" (idxOfStr "Pollster" f2 + 1) f2
  else if "Sponsor" ∉ f2 then f2 ++ ["Sponsor"]
  else f2

/-- The `RollingWeightedApprove` insertion of `compute_fieldnames`. -/
def cfStage3 (f3 : List String) : List String :=
  if "Approve" ∈ f3 ∧ "RollingWeightedApprove" ∉ f3 then
    insertAt "RollingWeightedApprove" (idxOfStr "Approve" f3 + 1) f3
  else if "RollingWeightedApprove" ∉ f3 then f3 ++ ["RollingWeightedApprove"]
  else f3

/-- `compute_fieldnames` from the source (its three sequential phases). -/
def compute_fieldnames (orig : List String) : List String :=
  cfStage3 (cfStage2 (cfStage1 orig))

/-- Insert `x` immediately after the first occurrence of `anchor`. -/
def insertAfterFirst (anchor x : String) : List String → List String
  | [] => []
  | b :: t => if b = anchor then b :: x :: t else b :: insertAfterFirst anchor x t

/-- Spec-side `Sponsor` step for the refinement target of claim C5. -/
def specStage2 (base : List String) : List String :=
  if "Sponsor" ∈ base then base
  else if "Pollster" ∈ base then insertAfterFirst "Pollster" "Sponsor" base
  else base ++ ["Sponsor"]

/-- Spec-side `RollingWeightedApprove` step for the refinement target of C5. -/
def specStage3 (s1 : List String) : List String :=
  if "RollingWeightedApprove" ∈ s1 then s1
  else if "Approve" ∈ s1 then insertAfterFirst "Approve" "RollingWeightedApprove" s1
  else s1 ++ ["RollingWeightedApprove"]

/-- Modelled from the spec's words (§3 invariant of `spec.md`): the input
schema minus `Disapprove` and `Net`, with `Sponsor` inserted immediately
after `Pollster` (or appended when both are absent) and
`RollingWeightedApprove` inserted immediately after `Approve` (or appended
when both are absent). Used as the refinement target for claim C5. -/
def spec_fieldnames (orig : List String) : List String :=
  specStage3 (specStage2
    (orig.filter (fun c => decide (c ≠ "Disapprove") && decide (c ≠ "Net"))))

/-! ### Fixed-point formatting (`f"{x:.5f}"`) -/

/-- Round `num / den` to the nearest integer, ties to even (the IEEE-754
rounding used by CPython's fixed-point formatting). -/
def roundHalfEven (num den : ℕ) : ℕ :=
  let q := num / den
  let r := num % den
  if den < 2 * r then q + 1
  else if 2 * r < den then q
  else if q % 2 = 0 then q else q + 1

/-- `f"{x:.5f}"` for a fraction: sign, integer part, point, five digits. -/
def formatFix5 (x : PyQ) : String :=
  let neg : Bool := decide (x.num * x.den < 0)
  let n := roundHalfEven (x.num.natAbs * 100000) x.den.natAbs
  String.mk ((if neg then ['-'] else [])
    ++ natToChars (n / 100000) ++ ['.'] ++ padZeros 5 (natToChars (n % 100000)))

/-! ### Rows (`csv.DictReader` dictionaries) -/

def getEnt : List (String × Option String) → String → Option String
  | [], _ => none
  | (k', v) :: rest, k => if k' = k then v else getEnt rest k

def hasKeyEnt : List (String × Option String) → String → Bool
  | [], _ => false
  | (k', _) :: rest, k => if k' = k then true else hasKeyEnt rest k

def setEnt : List (String × Option String) → String → Option String → List (String × Option String)
  | [], k, v => [(k, v)]
  | (k', v') :: rest, k, v => if k' = k then (k, v) :: rest else (k', v') :: setEnt rest k v

/-- A CSV row: ordered association list from column name to cell value.
`none` as a stored value models Python `None` (short row); an absent key and
a `None` value behave identically under `dict.get`, `float(...)`, `str(...)`
and CSV writing, and are both read back as `none` by `Row.get`. -/
structure Row : Type where
  entries : List (String × Option String)
deriving DecidableEq

/-- `row.get(k)` / `row.get(k, "")` feeding a parser: absent key or `None`
value both give `none`. -/
def Row.get (r : Row) (k : String) : Option String := getEnt r.entries k

/-- `k in row`. -/
def Row.hasKey (r : Row) (k : String) : Bool := hasKeyEnt r.entries k

/-- `row[k] = v`: update in place, or append a new key. -/
def Row.set (r : Row) (k : String) (v : Option String) : Row := ⟨setEnt r.entries k v⟩

/-- `row.setdefault(k, v)`: only inserts when the key is absent. -/
def Row.setdefault (r : Row) (k : String) (v : Option String) : Row :=
  if r.hasKey k then r else ⟨r.entries ++ [(k, v)]⟩

/-! ### The row pipeline of `main` -/

/-- The per-row enrichment loop of `main`: rewrite `Dates`, set `Sponsor`
from the raw `Pollster` cell, rewrite `Pollster`, then default every output
column to `""`. All reads are from the original row, as in the source. -/
def enrichRow (fns : List String) (row : Row) : Row :=
  let o1 := if row.hasKey "Dates" then row.set "Dates" (extract_date (row.get "Dates")) else row
  let o2 := o1.set "Sponsor" (some (extract_sponsor (row.get "Pollster")))
  let o3 := if row.hasKey "Pollster"
            then o2.set "Pollster" (some (extract_pollster (row.get "Pollster"))) else o2
  fns.foldl (fun o k => o.setdefault k (some "")) o3

/-! ### Sorting (`rows_out.sort(key=to_date_or_min(...), reverse=True)`) -/

/-- `to_date_or_min` from the source: split on `-`, parse three `int`s,
build a `date`; any failure yields `date.min = date(1, 1, 1)`. `str(None)`
is the string `"None"`, which fails to parse, as in the source. -/
def to_date_or_min (s : Option String) : ℕ × ℕ × ℕ :=
  let cs := match s with | none => "None".data | some t => t.data
  match splitOnChar '-' cs with
  | [a, b, c] =>
    match pyInt? a, pyInt? b, pyInt? c with
    | some y, some m, some d =>
      if 1 ≤ y ∧ y ≤ 9999 ∧ 1 ≤ m ∧ m ≤ 12 ∧ 1 ≤ d ∧ d ≤ (daysInMonth y.toNat m.toNat : ℤ)
      then (y.toNat, m.toNat, d.toNat) else (1, 1, 1)
    | _, _, _ => (1, 1, 1)
  | _ => (1, 1, 1)

/-- Whether the `try` body of `to_date_or_min` succeeds (the row's date is
parseable); failure is what routes a row to the sentinel minimum. -/
def parsesAsDate (s : Option String) : Bool :=
  let cs := match s with | none => "None".data | some t => t.data
  match splitOnChar '-' cs with
  | [a, b, c] =>
    match pyInt? a, pyInt? b, pyInt? c with
    | some y, some m, some d =>
      decide (1 ≤ y ∧ y ≤ 9999 ∧ 1 ≤ m ∧ m ≤ 12 ∧ 1 ≤ d ∧ d ≤ (daysInMonth y.toNat m.toNat : ℤ))
    | _, _, _ => false
  | _ => false

/-- Order-embedding of calendar dates into `ℕ` (months < 16, days < 32, so
this respects the lexicographic `date` comparison used by Python's sort). -/
def dateKey (t : ℕ × ℕ × ℕ) : ℕ := (t.1 * 16 + t.2.1) * 32 + t.2.2

def sortKey (r : Row) : ℕ := dateKey (to_date_or_min (r.get "Dates"))

/-- The sort relation: descending by parsed date. -/
def rowGE (a b : Row) : Prop := sortKey b ≤ sortKey a

instance : DecidableRel rowGE := fun a b => by unfold rowGE; infer_instance

/-- `rows_out.sort(key=..., reverse=True)`: Python's sort is stable, and a
stable descending sort is extensionally the insertion sort that keeps an
earlier row in front of a later row with the same key. -/
def sortRows (rows : List Row) : List Row := List.insertionSort rowGE rows

/-! ### The two weighted-average passes -/

/-- The parsed-float view of a cell, shared by both aggregation loops. -/
def fieldF (r : Row) (k : String) : Option PyF := (r.get k).bind (fun s => pyFloat? s.data)

/-- The shared inclusion rule of both aggregation loops: `Influence` and
`Approve` both parse as finite floats and the weight is strictly positive.
(The global loop `continue`s on a parse failure, the rolling loop substitutes
`nan`; both paths exclude the row, which is what `none` models.) -/
def qualifying (r : Row) : Option (PyQ × PyQ) :=
  match (r.get "Influence").bind (fun s => pyFloat? s.data),
        (r.get "Approve").bind (fun s => pyFloat? s.data) with
  | some (PyF.fin w), some (PyF.fin v) => if w.pos then some (w, v) else none
  | _, _ => none

/-- One step of `sum_w += w; sum_wv += w * v`. -/
def gStep (acc : PyQ × PyQ) (r : Row) : PyQ × PyQ :=
  match qualifying r with
  | some wv => (acc.1.add wv.1, acc.2.add (wv.1.mul wv.2))
  | none => acc

/-- The global pass: fold `gStep` over all rows from `(0, 0)`. -/
def gSums (rows : List Row) : PyQ × PyQ := rows.foldl gStep (PyQ.zero, PyQ.zero)

/-- The rolling pass: update the running accumulator by the inclusion rule
and stamp every row with the running ratio (or `""` while the running weight
is zero). -/
def rollingAux : PyQ → PyQ → List Row → List Row
  | _, _, [] => []
  | cw, cwv, r :: rest =>
    let p := gStep (cw, cwv) r
    (r.set "RollingWeightedApprove"
        (some (if p.1.pos then formatFix5 (p.2.div p.1) else "")))
      :: rollingAux p.1 p.2 rest

def rollingAnnotate (rows : List Row) : List Row := rollingAux PyQ.zero PyQ.zero rows

/-- Last element of a nonempty list given as head and tail. -/
def lastD : Row → List Row → Row
  | r, [] => r
  | _, x :: t => lastD x t

/-! ### `main` as a pure function -/

/-- `weighted_approve`: the global ratio, or `None` when no weight accrued. -/
def weightedApprove (rows : List Row) : Option PyQ :=
  let g := gSums rows
  if g.1.pos then some (g.2.div g.1) else none

/-- `csv.DictWriter(..., extrasaction='ignore')` with default `restval=''`:
project a row onto the schema, writing `""` for an absent or `None` cell. -/
def projectRow (fns : List String) (r : Row) : List String :=
  fns.map (fun k => (r.get k).getD "")

structure RunResult : Type where
  header : List String
  table : List (List String)
  stdoutLine : String
deriving DecidableEq

/-- The final `print` of `main`: the global ratio to five decimals, or the
`N/A` sentinel when no weight accrued. -/
def stdoutOf (wa : Option PyQ) : String :=
  match wa with
  | some q => "Weighted Approve (by Influence): " ++ formatFix5 q
  | none => "Weighted Approve (by Influence): N/A (no valid rows)"

/-- The whole of `main` after I/O framing: compute the output schema, enrich
each row, sort, aggregate, annotate, project, and report the global average
on standard output. -/
def run (inFields : List String) (rows : List Row) : RunResult :=
  let fns := compute_fieldnames inFields
  let sorted := sortRows (rows.map (enrichRow fns))
  let annotated := rollingAnnotate sorted
  { header := fns
  , table := annotated.map (projectRow fns)
  , stdoutLine := stdoutOf (weightedApprove sorted) }

/-! ### Concrete rows used by the example-level claims -/

def c2Row (w v : String) : Row := ⟨[("Influence", some w), ("Approve", some v)]⟩

def c2Bad : Row := ⟨[("Influence", some "x"), ("Approve", some "55")]⟩

def c3Rows : List Row := [⟨[("Influence", some "0"), ("Approve", some "50")]⟩,
  ⟨[("Influence", some "abc")]⟩]

def c4Unp : Row := ⟨[("Dates", some "x")]⟩

def c4Min : Row := ⟨[("Dates", some "0001-01-01")]⟩

def c9Rows : List Row := [c2Row "2" "50", c2Row "3" "60", c2Bad, c2Row "1" "40"]

/-! ### Lemmas: association-list rows -/

theorem getEnt_setEnt_self (es : List (String × Option String)) (k : String) (v : Option String) :
    getEnt (setEnt es k v) k = v := by
  induction es with
  | nil => simp [setEnt, getEnt]
  | cons e rest ih =>
    obtain ⟨k', v'⟩ := e
    by_cases h : k' = k
    · simp [setEnt, getEnt, h]
    · simp [setEnt, getEnt, h, ih]

theorem getEnt_setEnt_ne (es : List (String × Option String)) (k k' : String)
    (v : Option String) (h : k' ≠ k) : getEnt (setEnt es k v) k' = getEnt es k' := by
  induction es with
  | nil =>
    show getEnt [(k, v)] k' = getEnt [] k'
    simp only [getEnt]
    rw [if_neg (Ne.symm h)]
  | cons e rest ih =>
    obtain ⟨k'', v''⟩ := e
    by_cases hk : k'' = k
    · subst hk
      show getEnt (if k'' = k'' then (k'', v) :: rest else (k'', v'') :: setEnt rest k'' v) k'
          = getEnt ((k'', v'') :: rest) k'
      rw [if_pos rfl]
      simp only [getEnt]
      rw [if_neg (Ne.symm h), if_neg (Ne.symm h)]
    · show getEnt (if k'' = k then (k, v) :: rest else (k'', v'') :: setEnt rest k v) k'
          = getEnt ((k'', v'') :: rest) k'
      rw [if_neg hk]
      simp only [getEnt]
      by_cases hg : k'' = k'
      · rw [if_pos hg, if_pos hg]
      · rw [if_neg hg, if_neg hg, ih]

theorem hasKeyEnt_setEnt_self (es : List (String × Option String)) (k : String)
    (v : Option String) : hasKeyEnt (setEnt es k v) k = true := by
  induction es with
  | nil => simp [setEnt, hasKeyEnt]
  | cons e rest ih =>
    obtain ⟨k', v'⟩ := e
    by_cases h : k' = k
    · simp [setEnt, hasKeyEnt, h]
    · simp [setEnt, hasKeyEnt, h, ih]

theorem hasKeyEnt_setEnt_ne (es : List (String × Option String)) (k k' : String)
    (v : Option String) (h : k' ≠ k) : hasKeyEnt (setEnt es k v) k' = hasKeyEnt es k' := by
  induction es with
  | nil =>
    show hasKeyEnt [(k, v)] k' = hasKeyEnt [] k'
    simp only [hasKeyEnt]
    rw [if_neg (Ne.symm h)]
  | cons e rest ih =>
    obtain ⟨k'', v''⟩ := e
    by_cases hk : k'' = k
    · subst hk
      show hasKeyEnt (if k'' = k'' then (k'', v) :: rest else (k'', v'') :: setEnt rest k'' v) k'
          = hasKeyEnt ((k'', v'') :: rest) k'
      rw [if_pos rfl]
      simp only [hasKeyEnt]
    · show hasKeyEnt (if k'' = k then (k, v) :: rest else (k'', v'') :: setEnt rest k v) k'
          = hasKeyEnt ((k'', v'') :: rest) k'
      rw [if_neg hk]
      simp only [hasKeyEnt]
      by_cases hg : k'' = k'
      · rw [if_pos hg, if_pos hg]
      · rw [if_neg hg, if_neg hg, ih]

theorem getEnt_append (es l : List (String × Option String)) (k : String) :
    getEnt (es ++ l) k = if hasKeyEnt es k then getEnt es k else getEnt l k := by
  induction es with
  | nil => simp [getEnt, hasKeyEnt]
  | cons e rest ih =>
    obtain ⟨k', v'⟩ := e
    by_cases h : k' = k
    · simp [getEnt, hasKeyEnt, h]
    · simp [getEnt, hasKeyEnt, h, ih]

theorem hasKeyEnt_append (es l : List (String × Option String)) (k : String) :
    hasKeyEnt (es ++ l) k = (hasKeyEnt es k || hasKeyEnt l k) := by
  induction es with
  | nil => simp [hasKeyEnt]
  | cons e rest ih =>
    obtain ⟨k', v'⟩ := e
    by_cases h : k' = k
    · simp [hasKeyEnt, h]
    · simp [hasKeyEnt, h, ih]

theorem getEnt_eq_none_of_not_hasKey (es : List (String × Option String)) (k : String)
    (h : hasKeyEnt es k = false) : getEnt es k = none := by
  induction es with
  | nil => rfl
  | cons e rest ih =>
    obtain ⟨k', v'⟩ := e
    by_cases hk : k' = k
    · simp [hasKeyEnt, hk] at h
    · simp [hasKeyEnt, hk] at h
      simp [getEnt, hk, ih h]

theorem Row.get_set_self (r : Row) (k : String) (v : Option String) :
    (r.set k v).get k = v := getEnt_setEnt_self r.entries k v

theorem Row.get_set_ne (r : Row) (k k' : String) (v : Option String) (h : k' ≠ k) :
    (r.set k v).get k' = r.get k' := getEnt_setEnt_ne r.entries k k' v h

theorem Row.hasKey_set_self (r : Row) (k : String) (v : Option String) :
    (r.set k v).hasKey k = true := hasKeyEnt_setEnt_self r.entries k v

theorem Row.hasKey_set_ne (r : Row) (k k' : String) (v : Option String) (h : k' ≠ k) :
    (r.set k v).hasKey k' = r.hasKey k' := hasKeyEnt_setEnt_ne r.entries k k' v h

theorem Row.get_setdefault_of_hasKey (r : Row) (k k' : String) (v : Option String)
    (h : r.hasKey k = true) : (r.setdefault k' v).get k = r.get k := by
  unfold Row.setdefault
  by_cases hk : r.hasKey k' = true
  · simp [hk]
  · simp only [hk, if_neg, Bool.false_eq_true, if_false]
    show getEnt (r.entries ++ [(k', v)]) k = r.get k
    rw [getEnt_append]
    simp [Row.hasKey] at h
    simp [h, Row.get]

theorem Row.hasKey_setdefault_of_hasKey (r : Row) (k k' : String) (v : Option String)
    (h : r.hasKey k = true) : (r.setdefault k' v).hasKey k = true := by
  unfold Row.setdefault
  by_cases hk : r.hasKey k' = true
  · simp [hk, h]
  · simp only [hk, Bool.false_eq_true, if_false]
    show hasKeyEnt (r.entries ++ [(k', v)]) k = true
    rw [hasKeyEnt_append]
    simp [Row.hasKey] at h
    simp [h]

theorem foldSD_get_of_hasKey (fns : List String) :
    ∀ (r : Row) (k : String), r.hasKey k = true →
      (fns.foldl (fun o kk => o.setdefault kk (some "")) r).get k = r.get k := by
  induction fns with
  | nil => intro r k _; rfl
  | cons kk fns ih =>
    intro r k h
    rw [List.foldl_cons, ih _ _ (Row.hasKey_setdefault_of_hasKey r k kk (some "") h),
      Row.get_setdefault_of_hasKey r k kk (some "") h]

/-! ### Lemmas: the sponsor field of an enriched row (claim C6) -/

theorem enrichRow_get_sponsor (fns : List String) (row : Row) :
    (enrichRow fns row).get "Sponsor" = some (extract_sponsor (row.get "Pollster")) := by
  simp only [enrichRow]
  by_cases hp : row.hasKey "Pollster" = true
  · rw [if_pos hp]
    rw [foldSD_get_of_hasKey]
    · rw [Row.get_set_ne _ _ _ _ (by decide), Row.get_set_self]
    · rw [Row.hasKey_set_ne _ _ _ _ (by decide), Row.hasKey_set_self]
  · rw [if_neg hp]
    rw [foldSD_get_of_hasKey]
    · rw [Row.get_set_self]
    · rw [Row.hasKey_set_self]

/-! ### Lemmas: the aggregator inclusion rule survives enrichment -/

theorem pyFloat?_nil : pyFloat? ([] : List Char) = none := by decide

theorem fieldF_set_ne (r : Row) (k k' : String) (v : Option String) (h : k ≠ k') :
    fieldF (r.set k' v) k = fieldF r k := by
  unfold fieldF
  rw [Row.get_set_ne _ _ _ _ h]

theorem fieldF_setdefault (r : Row) (k kk : String) :
    fieldF (r.setdefault kk (some "")) k = fieldF r k := by
  unfold Row.setdefault
  by_cases h : r.hasKey kk = true
  · simp [h]
  · simp only [h, Bool.false_eq_true, if_false]
    show (getEnt (r.entries ++ [(kk, some "")]) k).bind _ = fieldF r k
    rw [getEnt_append]
    by_cases hk : hasKeyEnt r.entries k = true
    · simp [hk, fieldF, Row.get]
    · simp only [Bool.not_eq_true] at hk
      rw [if_neg (by simp [hk])]
      unfold fieldF Row.get
      rw [getEnt_eq_none_of_not_hasKey _ _ hk]
      by_cases hkk : kk = k
      · simp [getEnt, hkk]
        exact pyFloat?_nil
      · simp [getEnt, hkk]

theorem fieldF_foldSD (fns : List String) :
    ∀ (r : Row) (k : String),
      fieldF (fns.foldl (fun o kk => o.setdefault kk (some "")) r) k = fieldF r k := by
  induction fns with
  | nil => intro r k; rfl
  | cons kk fns ih =>
    intro r k
    rw [List.foldl_cons, ih, fieldF_setdefault]

theorem fieldF_enrichRow (fns : List String) (row : Row) (k : String)
    (h1 : k ≠ "Dates") (h2 : k ≠ "Sponsor") (h3 : k ≠ "Pollster") :
    fieldF (enrichRow fns row) k = fieldF row k := by
  simp only [enrichRow]
  rw [fieldF_foldSD]
  by_cases hp : row.hasKey "Pollster" = true
  · rw [if_pos hp, fieldF_set_ne _ _ _ _ h3, fieldF_set_ne _ _ _ _ h2]
    by_cases hd : row.hasKey "Dates" = true
    · rw [if_pos hd, fieldF_set_ne _ _ _ _ h1]
    · rw [if_neg hd]
  · rw [if_neg hp, fieldF_set_ne _ _ _ _ h2]
    by_cases hd : row.hasKey "Dates" = true
    · rw [if_pos hd, fieldF_set_ne _ _ _ _ h1]
    · rw [if_neg hd]

theorem qualifying_eq_fieldF (r : Row) :
    qualifying r =
      match fieldF r "Influence", fieldF r "Approve" with
      | some (PyF.fin w), some (PyF.fin v) => if w.pos then some (w, v) else none
      | _, _ => none := rfl

theorem qualifying_enrichRow (fns : List String) (row : Row) :
    qualifying (enrichRow fns row) = qualifying row := by
  rw [qualifying_eq_fieldF, qualifying_eq_fieldF,
    fieldF_enrichRow fns row "Influence" (by decide) (by decide) (by decide),
    fieldF_enrichRow fns row "Approve" (by decide) (by decide) (by decide)]

/-! ### Lemmas: fraction algebra and the fold steps -/

theorem PyQ.add_right_comm (a b c : PyQ) : (a.add b).add c = (a.add c).add b := by
  simp only [PyQ.add]
  ext
  · dsimp
    ring
  · dsimp
    ring

theorem gStep_right_comm (acc : PyQ × PyQ) (r1 r2 : Row) :
    gStep (gStep acc r1) r2 = gStep (gStep acc r2) r1 := by
  unfold gStep
  cases h1 : qualifying r1 with
  | none =>
    cases h2 : qualifying r2 with
    | none => rfl
    | some b => rfl
  | some a =>
    cases h2 : qualifying r2 with
    | none => rfl
    | some b =>
      simp only [Prod.mk.injEq]
      exact ⟨PyQ.add_right_comm _ _ _, PyQ.add_right_comm _ _ _⟩

theorem gSums_perm {l l' : List Row} (h : l.Perm l') : gSums l = gSums l' := by
  unfold gSums
  haveI : RightCommutative gStep := ⟨gStep_right_comm⟩
  exact h.foldl_eq _

theorem foldl_gStep_of_all_none {l : List Row} (h : ∀ r ∈ l, qualifying r = none) :
    ∀ acc : PyQ × PyQ, l.foldl gStep acc = acc := by
  induction l with
  | nil => intro acc; rfl
  | cons r rest ih =>
    intro acc
    rw [List.foldl_cons]
    have hr : qualifying r = none := h r (by simp)
    have hstep : gStep acc r = acc := by unfold gStep; rw [hr]
    rw [hstep]
    exact ih (fun x hx => h x (by simp [hx])) acc

/-! ### Lemmas: the sort stage -/

theorem sortRows_perm (rows : List Row) : (sortRows rows).Perm rows :=
  List.perm_insertionSort rowGE rows

theorem sortRows_sorted (rows : List Row) : List.Sorted rowGE (sortRows rows) := by
  haveI : IsTotal Row rowGE := ⟨fun a b => le_total (sortKey b) (sortKey a)⟩
  haveI : IsTrans Row rowGE := ⟨fun _ _ _ h1 h2 => le_trans h2 h1⟩
  exact List.sorted_insertionSort rowGE rows

theorem filter_orderedInsert (a : Row) (l : List Row) (k : ℕ) :
    (List.orderedInsert rowGE a l).filter (fun r => sortKey r == k)
      = if sortKey a = k then a :: l.filter (fun r => sortKey r == k)
        else l.filter (fun r => sortKey r == k) := by
  induction l with
  | nil =>
    by_cases h : sortKey a = k
    · have hb : (sortKey a == k) = true := beq_iff_eq.mpr h
      simp [List.orderedInsert, List.filter, hb, h]
    · have hb : (sortKey a == k) = false := beq_eq_false_iff_ne.mpr h
      simp [List.orderedInsert, List.filter, hb, h]
  | cons b t ih =>
    simp only [List.orderedInsert]
    by_cases hab : rowGE a b
    · rw [if_pos hab]
      by_cases h : sortKey a = k
      · have hb : (sortKey a == k) = true := beq_iff_eq.mpr h
        simp [List.filter_cons, hb, h]
      · have hb : (sortKey a == k) = false := beq_eq_false_iff_ne.mpr h
        simp [List.filter_cons, hb, h]
    · rw [if_neg hab]
      rw [List.filter_cons, List.filter_cons, ih]
      by_cases h : sortKey a = k
      · rw [if_pos h, if_pos h]
        by_cases hbk : sortKey b = k
        · exfalso
          apply hab
          show sortKey b ≤ sortKey a
          rw [hbk, h]
        · have hb : (sortKey b == k) = false := beq_eq_false_iff_ne.mpr hbk
          simp [hb]
      · rw [if_neg h, if_neg h]

theorem filter_sortRows (rows : List Row) (k : ℕ) :
    (sortRows rows).filter (fun r => sortKey r == k)
      = rows.filter (fun r => sortKey r == k) := by
  unfold sortRows
  induction rows with
  | nil => rfl
  | cons a t ih =>
    simp only [List.insertionSort]
    rw [filter_orderedInsert, ih, List.filter_cons]
    by_cases h : sortKey a = k
    · have hb : (sortKey a == k) = true := beq_iff_eq.mpr h
      simp [hb, h]
    · have hb : (sortKey a == k) = false := beq_eq_false_iff_ne.mpr h
      simp [hb, h]

/-! ### Lemmas: the rolling pass -/

theorem length_rollingAux : ∀ (l : List Row) (cw cwv : PyQ),
    (rollingAux cw cwv l).length = l.length := by
  intro l
  induction l with
  | nil => intro cw cwv; rfl
  | cons r t ih =>
    intro cw cwv
    simp only [rollingAux, List.length_cons]
    rw [ih]

theorem rollingAux_getLast :
    ∀ (rest : List Row) (r : Row) (cw cwv : PyQ),
      (rollingAux cw cwv (r :: rest)).getLast? =
        some ((lastD r rest).set "RollingWeightedApprove"
          (some (if ((r :: rest).foldl gStep (cw, cwv)).1.pos
                 then formatFix5 (((r :: rest).foldl gStep (cw, cwv)).2.div
                        ((r :: rest).foldl gStep (cw, cwv)).1)
                 else ""))) := by
  intro rest
  induction rest with
  | nil =>
    intro r cw cwv
    simp [rollingAux, lastD]
  | cons x t ih =>
    intro r cw cwv
    have hstep : rollingAux cw cwv (r :: x :: t)
        = (r.set "RollingWeightedApprove"
            (some (if (gStep (cw, cwv) r).1.pos
                   then formatFix5 ((gStep (cw, cwv) r).2.div (gStep (cw, cwv) r).1) else "")))
          :: rollingAux (gStep (cw, cwv) r).1 (gStep (cw, cwv) r).2 (x :: t) := rfl
    have hne : rollingAux (gStep (cw, cwv) r).1 (gStep (cw, cwv) r).2 (x :: t)
        = (x.set "RollingWeightedApprove"
            (some (if (gStep ((gStep (cw, cwv) r).1, (gStep (cw, cwv) r).2) x).1.pos
                   then formatFix5 ((gStep ((gStep (cw, cwv) r).1, (gStep (cw, cwv) r).2) x).2.div
                          (gStep ((gStep (cw, cwv) r).1, (gStep (cw, cwv) r).2) x).1) else "")))
          :: rollingAux (gStep ((gStep (cw, cwv) r).1, (gStep (cw, cwv) r).2) x).1
              (gStep ((gStep (cw, cwv) r).1, (gStep (cw, cwv) r).2) x).2 t := rfl
    rw [hstep, hne, List.getLast?_cons_cons, ← hne, ih]
    simp [lastD, List.foldl_cons, Prod.mk.eta]

/-! ### Lemmas: the schema rewrite -/

theorem removeFirstStr_of_not_mem (a : String) :
    ∀ l : List String, a ∉ l → removeFirstStr a l = l := by
  intro l
  induction l with
  | nil => intro _; rfl
  | cons b t ih =>
    intro h
    have hb : b ≠ a := fun hh => h (by simp [hh])
    simp [removeFirstStr, hb, ih (fun hh => h (by simp [hh]))]

theorem removeFirstStr_eq_filter (a : String) :
    ∀ l : List String, l.Nodup → removeFirstStr a l = l.filter (fun c => decide (c ≠ a)) := by
  intro l
  induction l with
  | nil => intro _; rfl
  | cons b t ih =>
    intro h
    rw [List.nodup_cons] at h
    by_cases hb : b = a
    · subst hb
      simp only [removeFirstStr, if_pos rfl, List.filter_cons]
      have hd : decide (b ≠ b) = false := by simp
      rw [hd]
      simp only [Bool.false_eq_true, if_false]
      exact ((List.filter_eq_self).mpr
        (fun c hc => decide_eq_true (show c ≠ b from fun hh => h.1 (hh ▸ hc)))).symm
    · simp only [removeFirstStr, if_neg hb, List.filter_cons]
      have hd : decide (b ≠ a) = true := decide_eq_true hb
      rw [hd, ih h.2]
      simp

theorem cfStage1_eq_filter (orig : List String) (h : orig.Nodup) :
    cfStage1 orig = orig.filter (fun c => decide (c ≠ "Disapprove") && decide (c ≠ "Net")) := by
  unfold cfStage1
  have h1 : (if "Disapprove" ∈ orig then removeFirstStr "Disapprove" orig else orig)
      = removeFirstStr "Disapprove" orig := by
    by_cases hm : "Disapprove" ∈ orig
    · rw [if_pos hm]
    · rw [if_neg hm, removeFirstStr_of_not_mem _ _ hm]
  rw [h1]
  have h2 : (if "Net" ∈ removeFirstStr "Disapprove" orig
        then removeFirstStr "Net" (removeFirstStr "Disapprove" orig)
        else removeFirstStr "Disapprove" orig)
      = removeFirstStr "Net" (removeFirstStr "Disapprove" orig) := by
    by_cases hm : "Net" ∈ removeFirstStr "Disapprove" orig
    · rw [if_pos hm]
    · rw [if_neg hm, removeFirstStr_of_not_mem _ _ hm]
  rw [h2, removeFirstStr_eq_filter "Disapprove" orig h,
    removeFirstStr_eq_filter "Net" _ (h.filter _), List.filter_filter]
  apply List.filter_congr
  intro c _
  exact Bool.and_comm _ _

theorem insertAt_idxOf (x a : String) : ∀ l : List String, a ∈ l →
    insertAt x (idxOfStr a l + 1) l = insertAfterFirst a x l := by
  intro l
  induction l with
  | nil => intro h; exact absurd h (List.not_mem_nil a)
  | cons b t ih =>
    intro h
    by_cases hb : b = a
    · simp [idxOfStr, insertAt, insertAfterFirst, hb]
    · have hm : a ∈ t := by
        rcases List.mem_cons.mp h with h1 | h1
        · exact absurd h1.symm hb
        · exact h1
      simp only [idxOfStr, if_neg hb, insertAfterFirst]
      show b :: insertAt x (idxOfStr a t + 1) t = b :: insertAfterFirst a x t
      rw [ih hm]

theorem cfStage2_eq_spec (l : List String) : cfStage2 l = specStage2 l := by
  unfold cfStage2 specStage2
  by_cases hS : "Sponsor" ∈ l
  · have hn1 : ¬("Pollster" ∈ l ∧ "Sponsor" ∉ l) := fun hc => hc.2 hS
    have hn2 : ¬("Sponsor" ∉ l) := fun hc => hc hS
    rw [if_pos hS, if_neg hn1, if_neg hn2]
  · by_cases hP : "Pollster" ∈ l
    · rw [if_pos (And.intro hP hS), if_neg hS, if_pos hP, insertAt_idxOf _ _ _ hP]
    · have hn1 : ¬("Pollster" ∈ l ∧ "Sponsor" ∉ l) := fun hc => hP hc.1
      rw [if_neg hn1, if_pos hS, if_neg hS, if_neg hP]

theorem cfStage3_eq_spec (l : List String) : cfStage3 l = specStage3 l := by
  unfold cfStage3 specStage3
  by_cases hS : "RollingWeightedApprove" ∈ l
  · have hn1 : ¬("Approve" ∈ l ∧ "RollingWeightedApprove" ∉ l) := fun hc => hc.2 hS
    have hn2 : ¬("RollingWeightedApprove" ∉ l) := fun hc => hc hS
    rw [if_pos hS, if_neg hn1, if_neg hn2]
  · by_cases hP : "Approve" ∈ l
    · rw [if_pos (And.intro hP hS), if_neg hS, if_pos hP, insertAt_idxOf _ _ _ hP]
    · have hn1 : ¬("Approve" ∈ l ∧ "RollingWeightedApprove" ∉ l) := fun hc => hP hc.1
      rw [if_neg hn1, if_pos hS, if_neg hS, if_neg hP]

theorem compute_fieldnames_eq_spec (orig : List String) (h : orig.Nodup) :
    compute_fieldnames orig = spec_fieldnames orig := by
  unfold compute_fieldnames spec_fieldnames
  rw [cfStage1_eq_filter orig h, cfStage2_eq_spec, cfStage3_eq_spec]

theorem mem_insertAfterFirst (c a x : String) : ∀ l : List String,
    c ∈ insertAfterFirst a x l → c ∈ l ∨ c = x := by
  intro l
  induction l with
  | nil => intro h; exact absurd h (List.not_mem_nil c)
  | cons b t ih =>
    intro h
    by_cases hb : b = a
    · simp only [insertAfterFirst, if_pos hb] at h
      rcases List.mem_cons.mp h with h1 | h1
      · exact Or.inl (by simp [h1])
      · rcases List.mem_cons.mp h1 with h2 | h2
        · exact Or.inr h2
        · exact Or.inl (List.mem_cons_of_mem _ h2)
    · simp only [insertAfterFirst, if_neg hb] at h
      rcases List.mem_cons.mp h with h1 | h1
      · exact Or.inl (by simp [h1])
      · rcases ih h1 with h2 | h2
        · exact Or.inl (List.mem_cons_of_mem _ h2)
        · exact Or.inr h2

theorem not_mem_specStage2 (c : String) (l : List String) (h : c ∉ l) (hx : c ≠ "Sponsor") :
    c ∉ specStage2 l := by
  unfold specStage2
  by_cases hS : "Sponsor" ∈ l
  · rw [if_pos hS]; exact h
  · rw [if_neg hS]
    by_cases hP : "Pollster" ∈ l
    · rw [if_pos hP]
      intro hc
      rcases mem_insertAfterFirst _ _ _ _ hc with h1 | h1
      · exact h h1
      · exact hx h1
    · rw [if_neg hP]
      intro hc
      rcases List.mem_append.mp hc with h1 | h1
      · exact h h1
      · rw [List.mem_singleton] at h1
        exact hx h1

theorem not_mem_specStage3 (c : String) (l : List String) (h : c ∉ l)
    (hx : c ≠ "RollingWeightedApprove") : c ∉ specStage3 l := by
  unfold specStage3
  by_cases hS : "RollingWeightedApprove" ∈ l
  · rw [if_pos hS]; exact h
  · rw [if_neg hS]
    by_cases hP : "Approve" ∈ l
    · rw [if_pos hP]
      intro hc
      rcases mem_insertAfterFirst _ _ _ _ hc with h1 | h1
      · exact h h1
      · exact hx h1
    · rw [if_neg hP]
      intro hc
      rcases List.mem_append.mp hc with h1 | h1
      · exact h h1
      · rw [List.mem_singleton] at h1
        exact hx h1

theorem not_mem_filterDN (c : String) (orig : List String)
    (hc : c = "Disapprove" ∨ c = "Net") :
    c ∉ orig.filter (fun x => decide (x ≠ "Disapprove") && decide (x ≠ "Net")) := by
  intro hmem
  have h2 := (List.mem_filter.mp hmem).2
  rcases hc with h | h <;> subst h <;> simp at h2

theorem nodup_insertAfterFirst (a x : String) : ∀ l : List String, l.Nodup → x ∉ l →
    (insertAfterFirst a x l).Nodup := by
  intro l
  induction l with
  | nil => intro _ _; exact List.nodup_nil
  | cons b t ih =>
    intro h hx
    rw [List.nodup_cons] at h
    by_cases hb : b = a
    · simp only [insertAfterFirst, if_pos hb]
      rw [List.nodup_cons, List.nodup_cons]
      refine ⟨?_, ?_, h.2⟩
      · intro hc
        rcases List.mem_cons.mp hc with h1 | h1
        · exact hx (by rw [← h1]; exact List.mem_cons_self b t)
        · exact h.1 h1
      · intro hc
        exact hx (List.mem_cons_of_mem _ hc)
    · simp only [insertAfterFirst, if_neg hb]
      rw [List.nodup_cons]
      constructor
      · intro hc
        rcases mem_insertAfterFirst _ _ _ _ hc with h1 | h1
        · exact h.1 h1
        · exact hx (by rw [h1]; exact List.mem_cons_self x t)
      · exact ih h.2 (fun hxx => hx (List.mem_cons_of_mem _ hxx))

theorem nodup_append_singleton (x : String) : ∀ l : List String, l.Nodup → x ∉ l →
    (l ++ [x]).Nodup := by
  intro l
  induction l with
  | nil => intro _ _; simp
  | cons b t ih =>
    intro h hx
    rw [List.nodup_cons] at h
    rw [List.cons_append, List.nodup_cons]
    constructor
    · intro hc
      rcases List.mem_append.mp hc with h1 | h1
      · exact h.1 h1
      · rw [List.mem_singleton] at h1
        exact hx (by rw [h1]; exact List.mem_cons_self x t)
    · exact ih h.2 (fun hxx => hx (List.mem_cons_of_mem _ hxx))

theorem nodup_specStage2 (l : List String) (h : l.Nodup) : (specStage2 l).Nodup := by
  unfold specStage2
  by_cases hS : "Sponsor" ∈ l
  · rw [if_pos hS]; exact h
  · rw [if_neg hS]
    by_cases hP : "Pollster" ∈ l
    · rw [if_pos hP]; exact nodup_insertAfterFirst _ _ _ h hS
    · rw [if_neg hP]; exact nodup_append_singleton _ _ h hS

theorem nodup_specStage3 (l : List String) (h : l.Nodup) : (specStage3 l).Nodup := by
  unfold specStage3
  by_cases hS : "RollingWeightedApprove" ∈ l
  · rw [if_pos hS]; exact h
  · rw [if_neg hS]
    by_cases hP : "Approve" ∈ l
    · rw [if_pos hP]; exact nodup_insertAfterFirst _ _ _ h hS
    · rw [if_neg hP]; exact nodup_append_singleton _ _ h hS

/-! ### Lemmas: `run` -/

theorem run_table_length (inF : List String) (rows : List Row) :
    (run inF rows).table.length = rows.length := by
  have h1 : (run inF rows).table
      = (rollingAnnotate (sortRows (rows.map (enrichRow (compute_fieldnames inF))))).map
          (projectRow (compute_fieldnames inF)) := rfl
  rw [h1, List.length_map]
  unfold rollingAnnotate
  rw [length_rollingAux, (sortRows_perm _).length_eq, List.length_map]

theorem weightedApprove_perm {l l' : List Row} (h : l.Perm l') :
    weightedApprove l = weightedApprove l' := by
  unfold weightedApprove
  rw [gSums_perm h]

theorem run_stdout_eq (inF : List String) (rows : List Row) :
    (run inF rows).stdoutLine
      = stdoutOf (weightedApprove
          (sortRows (rows.map (enrichRow (compute_fieldnames inF))))) := rfl

theorem run_stdout_perm (inF : List String) {rows rows' : List Row} (h : rows.Perm rows') :
    (run inF rows').stdoutLine = (run inF rows).stdoutLine := by
  rw [run_stdout_eq, run_stdout_eq]
  have hperm : (sortRows (rows'.map (enrichRow (compute_fieldnames inF)))).Perm
      (sortRows (rows.map (enrichRow (compute_fieldnames inF)))) :=
    (sortRows_perm _).trans ((h.symm.map _).trans (sortRows_perm _).symm)
  rw [weightedApprove_perm hperm]

/-! ## The claims -/

/-- C1: `extract_date` follows the strict priority order of the source —
the `@`-id branch (trailing digits of the trimmed tail after the last `@`,
read as days since 1960-01-01), then the `MM/DD - MM/DD, YYYY` range branch
(second pair with the year), then the single `MM/DD/YYYY` branch, then the
input unchanged. Parse failures (no trailing digits, month 13) fall through
instead of raising, and null input is returned as null. The spec's examples:
`...@12345` is 1993-10-19 (= 1960-01-01 + 12345 days), the Field Poll range
is 2016-06-10, `03/04/2021` is 2021-03-04, unparseable text passes through,
and the `@` branch preempts the later branches. -/
theorem C1_extract_date_priority :
    extract_date (some "...@12345") = some "1993-10-19"
    ∧ extract_date (some "Field Poll 06/01 - 06/10, 2016") = some "2016-06-10"
    ∧ extract_date (some "03/04/2021") = some "2021-03-04"
    ∧ extract_date (some "unparseable text") = some "unparseable text"
    ∧ extract_date none = none
    ∧ extract_date (some "13/40 - 13/41, 2016") = some "13/40 - 13/41, 2016"
    ∧ extract_date (some "03/04/2021 @123") = some "1960-05-03"
    ∧ extract_date (some "03/04/2021 then 06/01 - 06/10, 2016") = some "2016-06-10"
    ∧ extract_date (some "poll @ Jan") = some "poll @ Jan" := by
  decide

/-- C2: the rolling pass scans the sorted records with a running
(weight, weight·value) accumulator, updates it exactly when both fields
parse with positive weight, stamps every row with the running ratio to five
decimals (empty while the running weight is zero), and carries the previous
ratio through non-qualifying rows. On the spec's sequence
(2,50), (3,60), invalid, (1,40) the stamped values are 50.00000, 56.00000,
56.00000, 53.33333. -/
theorem C2_rolling_pass :
    ((rollingAnnotate [c2Row "2" "50", c2Row "3" "60", c2Bad, c2Row "1" "40"]).map
        (fun r => r.get "RollingWeightedApprove")
      = [some "50.00000", some "56.00000", some "56.00000", some "53.33333"])
    ∧ ((rollingAnnotate [c2Bad]).map (fun r => r.get "RollingWeightedApprove") = [some ""])
    ∧ ∀ (cw cwv : PyQ) (r : Row) (rest : List Row), qualifying r = none →
        rollingAux cw cwv (r :: rest)
          = (r.set "RollingWeightedApprove"
              (some (if cw.pos then formatFix5 (cwv.div cw) else ""))) :: rollingAux cw cwv rest := by
  refine ⟨by decide, by decide, ?_⟩
  intro cw cwv r rest hq
  have hstep : gStep (cw, cwv) r = (cw, cwv) := by unfold gStep; rw [hq]
  show (r.set "RollingWeightedApprove"
      (some (if (gStep (cw, cwv) r).1.pos
             then formatFix5 ((gStep (cw, cwv) r).2.div (gStep (cw, cwv) r).1) else "")))
    :: rollingAux (gStep (cw, cwv) r).1 (gStep (cw, cwv) r).2 rest
    = (r.set "RollingWeightedApprove"
        (some (if cw.pos then formatFix5 (cwv.div cw) else ""))) :: rollingAux cw cwv rest
  rw [hstep]

/-- Witness for C2's carried-forward clause at a concrete accumulator. -/
theorem C2_witness :
    qualifying c2Bad = none
    ∧ rollingAux ⟨2, 1⟩ ⟨100, 1⟩ (c2Bad :: [])
      = (c2Bad.set "RollingWeightedApprove"
          (some (if PyQ.pos ⟨2, 1⟩ then formatFix5 (PyQ.div ⟨100, 1⟩ ⟨2, 1⟩) else "")))
        :: rollingAux ⟨2, 1⟩ ⟨100, 1⟩ [] :=
  ⟨by decide, C2_rolling_pass.2.2 ⟨2, 1⟩ ⟨100, 1⟩ c2Bad [] (by decide)⟩

/-- C3 (amended): with no qualifying row the program still writes one output
row per input row and prints the fixed sentinel line
`Weighted Approve (by Influence): N/A (no valid rows)` — it never divides by
zero; the reported line is invariant under permuting the input rows; and
when the global ratio is defined the line reports it to five decimals. (The
sentinel spells `N/A (no valid rows)`, not the literal words
"not available".) -/
theorem C3_global_average_reporting (inF : List String) (rows : List Row) :
    ((∀ r ∈ rows, qualifying r = none) →
      (run inF rows).stdoutLine = "Weighted Approve (by Influence): N/A (no valid rows)"
      ∧ (run inF rows).table.length = rows.length)
    ∧ (∀ rows' : List Row, rows.Perm rows' →
        (run inF rows').stdoutLine = (run inF rows).stdoutLine)
    ∧ (∀ q : PyQ,
        weightedApprove (sortRows (rows.map (enrichRow (compute_fieldnames inF)))) = some q →
        (run inF rows).stdoutLine = "Weighted Approve (by Influence): " ++ formatFix5 q) := by
  refine ⟨?_, ?_, ?_⟩
  · intro h
    constructor
    · have hall : ∀ r ∈ sortRows (rows.map (enrichRow (compute_fieldnames inF))),
          qualifying r = none := by
        intro r hr
        have hr2 : r ∈ rows.map (enrichRow (compute_fieldnames inF)) :=
          ((sortRows_perm _).mem_iff).mp hr
        rcases List.mem_map.mp hr2 with ⟨r0, hr0, hre⟩
        rw [← hre, qualifying_enrichRow]
        exact h r0 hr0
      have hw : weightedApprove (sortRows (rows.map (enrichRow (compute_fieldnames inF))))
          = none := by
        unfold weightedApprove
        rw [show gSums (sortRows (rows.map (enrichRow (compute_fieldnames inF))))
            = (PyQ.zero, PyQ.zero) from foldl_gStep_of_all_none hall _]
        rw [if_neg (show ¬ PyQ.zero.pos by decide)]
      rw [run_stdout_eq, hw]
      rfl
    · exact run_table_length inF rows
  · intro rows' hperm
    exact run_stdout_perm inF hperm
  · intro q hq
    rw [run_stdout_eq, hq]
    rfl

/-- Witness for C3 on a concrete input with no qualifying row. -/
theorem C3_witness :
    (∀ r ∈ c3Rows, qualifying r = none)
    ∧ (run ["Influence", "Approve"] c3Rows).stdoutLine
        = "Weighted Approve (by Influence): N/A (no valid rows)"
    ∧ (run ["Influence", "Approve"] c3Rows).table.length = c3Rows.length :=
  ⟨by decide,
    ((C3_global_average_reporting ["Influence", "Approve"] c3Rows).1 (by decide)).1,
    ((C3_global_average_reporting ["Influence", "Approve"] c3Rows).1 (by decide)).2⟩

/-- C3 counterexample: the sentinel line printed when no row qualifies is
`Weighted Approve (by Influence): N/A (no valid rows)`; it does not contain
the literal words "not available" claimed by the spec. -/
theorem C3_counterexample :
    (run ["Influence"] [⟨[("Influence", some "0")]⟩]).stdoutLine
      = "Weighted Approve (by Influence): N/A (no valid rows)"
    ∧ containsSeq "not available".data
        ((run ["Influence"] [⟨[("Influence", some "0")]⟩]).stdoutLine).data = false := by
  decide

/-- C4 (amended): the sort stage is a stable descending sort on the parsed
`Dates` key with sentinel minimum for parse failures: adjacent (indeed all)
output pairs are in non-increasing key order, and for every key value the
rows carrying it appear in their original relative input order. Rows whose
parsed date exceeds the sentinel therefore precede all unparseable rows;
rows that parse exactly to the sentinel date 0001-01-01 tie with unparseable
rows instead of preceding them. -/
theorem C4_sort_stage (rows : List Row) :
    List.Sorted rowGE (sortRows rows)
    ∧ (∀ k : ℕ, (sortRows rows).filter (fun r => sortKey r == k)
        = rows.filter (fun r => sortKey r == k))
    ∧ ∀ (i j : Fin (sortRows rows).length), i < j →
        sortKey ((sortRows rows).get j) ≤ sortKey ((sortRows rows).get i) := by
  refine ⟨sortRows_sorted rows, fun k => filter_sortRows rows k, ?_⟩
  intro i j hij
  exact List.pairwise_iff_get.mp (sortRows_sorted rows) i j hij

/-- C4 counterexample: `0001-01-01` parses successfully yet equals the
sentinel `date.min`, so an unparseable row earlier in the input stays
*before* this parseable row after sorting — the claim that unparseable rows
appear strictly after all parseable rows fails. -/
theorem C4_counterexample :
    parsesAsDate (c4Min.get "Dates") = true
    ∧ parsesAsDate (c4Unp.get "Dates") = false
    ∧ sortRows [c4Unp, c4Min] = [c4Unp, c4Min] := by
  decide

/-- Witness for C4 at a concrete two-row input, index pair discharged. -/
theorem C4_witness :
    List.Sorted rowGE (sortRows [c4Unp, c4Min])
    ∧ ((sortRows [c4Unp, c4Min]).filter (fun r => sortKey r == 545)
        = [c4Unp, c4Min].filter (fun r => sortKey r == 545))
    ∧ sortKey ((sortRows [c4Unp, c4Min]).get ⟨1, by decide⟩)
        ≤ sortKey ((sortRows [c4Unp, c4Min]).get ⟨0, by decide⟩) :=
  ⟨(C4_sort_stage [c4Unp, c4Min]).1, (C4_sort_stage [c4Unp, c4Min]).2.1 545,
    (C4_sort_stage [c4Unp, c4Min]).2.2 ⟨0, by decide⟩ ⟨1, by decide⟩ (by decide)⟩

/-- C5 (amended): for every duplicate-free input column list the computed
schema equals the spec's description — input minus Disapprove/Net, Sponsor
right after Pollster (or appended when both absent), RollingWeightedApprove
right after Approve (or appended when both absent) — and in particular never
contains Disapprove or Net. (With duplicated input names the removal loop
only removes the first occurrence, so the restriction to duplicate-free
lists is necessary; see the counterexample.) -/
theorem C5_schema_rewrite (orig : List String) (h : orig.Nodup) :
    compute_fieldnames orig = spec_fieldnames orig
    ∧ "Disapprove" ∉ compute_fieldnames orig
    ∧ "Net" ∉ compute_fieldnames orig := by
  refine ⟨compute_fieldnames_eq_spec orig h, ?_, ?_⟩
  · rw [compute_fieldnames_eq_spec orig h]
    unfold spec_fieldnames
    exact not_mem_specStage3 _ _
      (not_mem_specStage2 _ _ (not_mem_filterDN _ _ (Or.inl rfl)) (by decide)) (by decide)
  · rw [compute_fieldnames_eq_spec orig h]
    unfold spec_fieldnames
    exact not_mem_specStage3 _ _
      (not_mem_specStage2 _ _ (not_mem_filterDN _ _ (Or.inr rfl)) (by decide)) (by decide)

/-- Witness for C5 on the natural schema. -/
theorem C5_witness :
    (["Dates", "Pollster", "Approve", "Disapprove", "Net", "Influence"] : List String).Nodup
    ∧ (compute_fieldnames ["Dates", "Pollster", "Approve", "Disapprove", "Net", "Influence"]
        = spec_fieldnames ["Dates", "Pollster", "Approve", "Disapprove", "Net", "Influence"]
      ∧ "Disapprove" ∉ compute_fieldnames
          ["Dates", "Pollster", "Approve", "Disapprove", "Net", "Influence"]
      ∧ "Net" ∉ compute_fieldnames
          ["Dates", "Pollster", "Approve", "Disapprove", "Net", "Influence"]) :=
  ⟨by decide,
    C5_schema_rewrite ["Dates", "Pollster", "Approve", "Disapprove", "Net", "Influence"]
      (by decide)⟩

/-- C5 counterexample: with a duplicated `Disapprove` column the removal
loop drops only the first occurrence, so the output still contains
`Disapprove`, contradicting the claim as stated for arbitrary input lists. -/
theorem C5_counterexample :
    compute_fieldnames ["Disapprove", "Disapprove"]
      = ["Disapprove", "Sponsor", "RollingWeightedApprove"]
    ∧ "Disapprove" ∈ compute_fieldnames ["Disapprove", "Disapprove"] := by
  decide

/-- C6 (amended): every enriched row's `Sponsor` equals the sponsor
extracted from the original raw `Pollster` cell (the extraction runs before
the cell is overwritten); the extractor finds a `^Sponsor:<text>^` segment
anywhere, with case-insensitive label, whitespace allowed before the label
and after the colon — but not between the label and the colon — and returns
the trimmed content, or the empty string when no segment matches or the
input is absent. -/
theorem C6_sponsor_extraction :
    (∀ (fns : List String) (row : Row),
        (enrichRow fns row).get "Sponsor" = some (extract_sponsor (row.get "Pollster")))
    ∧ extract_sponsor none = ""
    ∧ extract_sponsor (some "^Sponsor: ABC^") = "ABC"
    ∧ extract_sponsor (some "start ^  sPoNsOr:   Strength in Numbers  ^ tail")
        = "Strength in Numbers"
    ∧ extract_sponsor (some "no segment") = "" := by
  refine ⟨enrichRow_get_sponsor, by decide, by decide, by decide, by decide⟩

/-- C6 counterexample: whitespace before the colon is NOT accepted — the
pattern `\^\s*Sponsor:\s*([^\^]+)\^` allows whitespace after the colon only,
so `^Sponsor : ABC^` yields the empty string, not `ABC`. -/
theorem C6_counterexample :
    extract_sponsor (some "^Sponsor : ABC^") = ""
    ∧ extract_sponsor (some "^Sponsor : ABC^") ≠ "ABC" := by
  decide

/-- C7: `extract_pollster` never returns null — absent input gives the empty
string; the first anchor span's trimmed inner text wins (case-insensitive
tag, content across lines), else the trimmed text before the first caret,
else the tag-stripped trimmed remainder. The spec's example yields pollster
`Quinnipiac` with sponsor `ABC`. -/
theorem C7_pollster_extraction :
    extract_pollster none = ""
    ∧ extract_pollster (some "<a href='x'>Quinnipiac</a>^Sponsor: ABC^") = "Quinnipiac"
    ∧ extract_sponsor (some "<a href='x'>Quinnipiac</a>^Sponsor: ABC^") = "ABC"
    ∧ extract_pollster (some "<A HREF='u'>\nIpsos\n</A> tail") = "Ipsos"
    ∧ extract_pollster (some "<a>One</a><a>Two</a>") = "One"
    ∧ extract_pollster (some "YouGov^Economist^") = "YouGov"
    ∧ extract_pollster (some "<b>Marist</b> College") = "Marist College" := by
  decide

/-- C8: the pipeline writes exactly one output row per input row — the
enrichment is a map, the sort a permutation, and the rolling annotation a
one-for-one rewrite, so no row is dropped or added. -/
theorem C8_row_count (inF : List String) (rows : List Row) :
    (run inF rows).table.length = rows.length :=
  run_table_length inF rows

/-- C9: when at least one row qualifies, the rolling value stamped on the
last row equals the global weighted average formatted to five decimals: both
passes fold the identical inclusion rule over the same row list, so their
final accumulators coincide. -/
theorem C9_last_rolling_eq_global (rows : List Row) (h : (gSums rows).1.pos) :
    (rollingAnnotate rows).getLast?.bind (fun r => r.get "RollingWeightedApprove")
      = some (formatFix5 ((gSums rows).2.div (gSums rows).1)) := by
  cases rows with
  | nil => exact absurd h (show ¬ PyQ.zero.pos by decide)
  | cons r rest =>
    unfold rollingAnnotate
    rw [rollingAux_getLast rest r PyQ.zero PyQ.zero]
    have hg : (r :: rest).foldl gStep (PyQ.zero, PyQ.zero) = gSums (r :: rest) := rfl
    rw [hg, if_pos h]
    exact Row.get_set_self _ _ _

/-- Witness for C9 on the spec's rolling-average example rows. -/
theorem C9_witness :
    (gSums c9Rows).1.pos
    ∧ (rollingAnnotate c9Rows).getLast?.bind (fun r => r.get "RollingWeightedApprove")
        = some (formatFix5 ((gSums c9Rows).2.div (gSums c9Rows).1)) :=
  ⟨by decide, C9_last_rolling_eq_global c9Rows (by decide)⟩

/-- C10: on a duplicate-free input column list the computed schema is
duplicate-free — the two insertions only fire when the inserted name is
absent, and the removals only delete. -/
theorem C10_schema_nodup (orig : List String) (h : orig.Nodup) :
    (compute_fieldnames orig).Nodup := by
  rw [compute_fieldnames_eq_spec orig h]
  unfold spec_fieldnames
  exact nodup_specStage3 _ (nodup_specStage2 _ (h.filter _))

/-- Witness for C10. -/
theorem C10_witness :
    (["Pollster", "Approve", "Dates"] : List String).Nodup
    ∧ (compute_fieldnames ["Pollster", "Approve", "Dates"]).Nodup :=
  ⟨by decide, C10_schema_nodup ["Pollster", "Approve", "Dates"] (by decide)⟩
